import Mathlib

/-!
# Verification of the spliterator library

A shallow embedding of the core of the `spliterator` repository: the
Boyer-Moore-Horspool delimiter search (`CharacterSequence.search`), the
synchronous `Spliterator` over in-memory bytes, the `AsyncSpliterator`
over chunked byte streams backed by a `BufferController`, the CSV
projection (`CSVSpliterator.from` / `fromAsync` and its emitters), the
header canonicalization (`normalizeColumnNames`), and the parallel chunk
planner (`DelimitedChunkReader.fromAsync`).

Byte strings are modelled as `List Nat` (each element a byte value).
JavaScript `undefined`-able init fields are modelled as `Option`.
Mutable iterator state is modelled by explicit state records, and the
self-recursive `next()` methods by fuel-indexed step functions.
-/

set_option maxRecDepth 16384

namespace Spliterator

/-- JS `TypedArray.subarray(lo, hi)` / slicing with clamping: the bytes of
`l` in positions `[lo, hi)`, both bounds clamped to `[0, l.length]`. -/
def listExtract (l : List Nat) (lo hi : Nat) : List Nat :=
  (l.drop lo).take (hi - lo)

/-- The Boyer-Moore-Horspool jump table of `CharacterSequence`: built by
initializing all 256 entries to the needle length and then, for each
`i < needle.length - 1` in ascending order, setting the entry of byte
`needle[i]` to `needle.length - 1 - i` (later indices overwrite earlier
ones).  We model the table as a function from byte values. -/
def skipOf (needle : List Nat) (b : Nat) : Nat :=
  (List.range (needle.length - 1)).foldl
    (fun acc i => if needle.getD i 0 = b then needle.length - 1 - i else acc)
    needle.length

/-- The inner right-to-left comparison loop of `CharacterSequence.search`:
it succeeds exactly when every needle byte agrees with the haystack at
window position `w`.  All reads are in bounds at every call site because
the window condition `w + needle.length ≤ end` holds. -/
def matchesAt (haystack needle : List Nat) (w : Nat) : Bool :=
  (List.range needle.length).all fun i => haystack.getD (w + i) 0 = needle.getD i 0

/-- The outer window loop of `CharacterSequence.search`.  The JS loop
condition `startIndex <= end - sequenceLength` is the exact integer
condition `start + needle.length ≤ endPos`.  On a mismatch the window
advances by the jump-table entry of the last byte in the window.  The
loop is modelled with fuel; `-2` marks fuel exhaustion, which is
unreachable whenever `fuel ≥ endPos + 1 - start` and the needle is
nonempty (every advance is by at least one). -/
def bmhSearchGo (haystack needle : List Nat) (endPos : Nat) : Nat → Nat → Int
  | 0, _ => -2
  | fuel + 1, start =>
    if start + needle.length ≤ endPos then
      if matchesAt haystack needle start then (start : Int)
      else
        bmhSearchGo haystack needle endPos fuel
          (start + skipOf needle (haystack.getD (start + needle.length - 1) 0))
    else -1

/-- `CharacterSequence.search(haystack, start)` with the default end
position `haystack.length`: the index of the first needle occurrence at
or after `start`, or `-1`. -/
def chSearch (haystack needle : List Nat) (start : Nat) : Int :=
  bmhSearchGo haystack needle haystack.length (haystack.length + 1) start

/-- `D` occurs in `h` at position `k`: the window fits and the bytes of
`h` in `[k, k + D.length)` are exactly `D`. -/
def occursAt (h D : List Nat) (k : Nat) : Prop :=
  k + D.length ≤ h.length ∧ listExtract h k (k + D.length) = D

instance (h D : List Nat) (k : Nat) : Decidable (occursAt h D k) := by
  unfold occursAt; infer_instance

example : chSearch [97, 98, 10, 99] [10] 0 = 2 := by decide
example : chSearch [97, 98, 10, 99] [10] 3 = -1 := by decide
example : chSearch [97, 13, 10, 99, 13, 10] [13, 10] 2 = 4 := by decide
example : occursAt [97, 98, 10, 99] [10] 2 := by decide

/-! ## The synchronous `Spliterator` (in-memory source)

State fields mirror the private fields of the class; `SInit` mirrors
`SpliteratorInit` with `Option` for fields the caller may leave
undefined (`take = none` models the default `Infinity`). -/

/-- `SpliteratorInit`, shared by the synchronous and asynchronous
spliterators.  A `none` field models a JS `undefined` entry. -/
structure SInit where
  delimiter : Option (List Nat) := none
  position : Option Nat := none
  skipEmpty : Option Bool := none
  drop : Option Nat := none
  take : Option Nat := none
  deriving Repr

/-- The mutable state of a synchronous `Spliterator`.
`indicesByteLength` caches `IndexQueue.byteLength` (total span of queued
ranges), maintained on enqueue and dequeue as in `IndexQueue`.
`yieldStopCount = none` models `Infinity` (no `take` limit). -/
structure SyncState where
  source : List Nat
  needle : List Nat
  indices : List (Nat × Nat)
  indicesByteLength : Nat
  highWaterMark : Nat
  yieldDropCount : Nat
  yieldStopCount : Option Nat
  skipEmpty : Bool
  yieldCount : Nat
  readPosition : Nat
  lastByteRangeSeen : Option (Nat × Nat)
  done : Bool
  deriving Repr

/-- The `Spliterator` constructor.  `delimiter` defaults to a line feed,
`position` to `0`, `skipEmpty` to `true`; the stop count is
`max(take ?? Infinity, 0) + max(0, drop ?? 0)`. -/
def mkSyncState (source : List Nat) (init : SInit) : SyncState :=
  let needle := init.delimiter.getD [10]
  let dropCount := init.drop.getD 0
  { source := source
    needle := needle
    indices := []
    indicesByteLength := 0
    highWaterMark := max (needle.length * 4) 4096
    yieldDropCount := dropCount
    yieldStopCount := init.take.map (· + dropCount)
    skipEmpty := init.skipEmpty.getD true
    yieldCount := 0
    readPosition := init.position.getD 0
    lastByteRangeSeen := none
    done := false }

/-- `IndexQueue.enqueue`: append the tuple and add its span to the cached
byte length. -/
def enqueueRange (s : SyncState) (r : Nat × Nat) : SyncState :=
  { s with indices := s.indices ++ [r], indicesByteLength := s.indicesByteLength + (r.2 - r.1) }

/-- The scanning loop of `Spliterator.#fill`: while the read position is
before the end of the source and the queued byte length is below the
high-water mark, search for the next delimiter; stop at the first failed
search, otherwise enqueue `[readPosition, delimiterIndex)` and advance
past the delimiter.  Fuel-indexed; each iteration advances the read
position by at least the needle length. -/
def syncFillLoop : Nat → SyncState → SyncState
  | 0, s => s
  | fuel + 1, s =>
    if s.readPosition < s.source.length ∧ s.indicesByteLength < s.highWaterMark then
      match chSearch s.source s.needle s.readPosition with
      | .negSucc _ => s
      | .ofNat delimiterIndex =>
        syncFillLoop fuel
          { enqueueRange s (s.readPosition, delimiterIndex) with
            readPosition := delimiterIndex + s.needle.length }
    else s

/-- `Spliterator.#fill`.  When the read position sits exactly at the end
of the source, handle the end-of-file cases (enqueue the range after the
final delimiter, or after the last emitted range, or the whole source
when nothing was ever found) and set `done`; otherwise run the scanning
loop.  The Nat subtraction in the final-delimiter probe matches the JS
`sourceByteLength - needle.length`, which is nonnegative here because a
delimiter was already found. -/
def syncFill (s : SyncState) : SyncState :=
  let len := s.source.length
  if s.readPosition = len then
    let s' :=
      match s.lastByteRangeSeen with
      | some lastByteRange =>
        if lastByteRange.2 < len then
          match chSearch s.source s.needle (len - s.needle.length) with
          | .ofNat possibleDelimiterIndex =>
            enqueueRange s (possibleDelimiterIndex + s.needle.length, len)
          | .negSucc _ => enqueueRange s (lastByteRange.2 + s.needle.length, len)
        else s
      | none => if s.yieldCount = 0 then enqueueRange s (0, len) else s
    { s' with done := true }
  else syncFillLoop (s.source.length + 2) s

/-- One step of the iteration: either a slice, the terminal result, or
the `TypeError` thrown when `next()` destructures the `undefined`
returned by dequeuing an empty queue. -/
inductive StepResult where
  | yields (slice : List Nat)
  | finished
  | crashed
  | fuelOut
  deriving Repr, DecidableEq

/-- `Spliterator.next()`.  Checks the stop condition, fills when the
queue is empty, dequeues (crashing on `undefined`), records the range,
and recurses on empty-slice skips and dropped yields. -/
def syncNext : Nat → SyncState → StepResult × SyncState
  | 0, s => (.fuelOut, s)
  | fuel + 1, s =>
    if s.done || (match s.yieldStopCount with | some stop => decide (stop ≤ s.yieldCount) | none => false) then
      (.finished, s)
    else
      let s := if s.indices.isEmpty then syncFill s else s
      match s.indices with
      | [] => (.crashed, s)
      | r :: rest =>
        let s := { s with
          indices := rest
          indicesByteLength := s.indicesByteLength - (r.2 - r.1)
          lastByteRangeSeen := some r }
        let slice := listExtract s.source r.1 r.2
        if slice.length = 0 ∧ s.skipEmpty then syncNext fuel s
        else
          let s := { s with yieldCount := s.yieldCount + 1 }
          if s.yieldCount ≤ s.yieldDropCount then syncNext fuel s
          else (.yields slice, s)

/-- Outcome of running a spliterator to completion. -/
inductive RunOutcome where
  | finished
  | crashed
  | fuelOut
  deriving Repr, DecidableEq

/-- Drain the iterator, collecting every emitted slice in order, until
it reports done, crashes, or fuel runs out.  (`Spliterator.toArray`.) -/
def syncCollect : Nat → SyncState → List (List Nat) × RunOutcome
  | 0, _ => ([], .fuelOut)
  | fuel + 1, s =>
    match syncNext (fuel + 1) s with
    | (.yields slice, s') =>
      let (rest, outcome) := syncCollect fuel s'
      (slice :: rest, outcome)
    | (.finished, _) => ([], .finished)
    | (.crashed, _) => ([], .crashed)
    | (.fuelOut, _) => ([], .fuelOut)

/-- ASCII byte encoding for writing concrete sources. -/
def strBytes (s : String) : List Nat := s.data.map Char.toNat

/-- ASCII decoding of an emitted slice (`TextDecoder` on ASCII input). -/
def decodeAscii (l : List Nat) : String := ⟨l.map Char.ofNat⟩

example :
    syncCollect 32 (mkSyncState (strBytes "a\nb\n") {}) =
      ([strBytes "a", strBytes "b"], .finished) := by decide
example :
    syncCollect 32 (mkSyncState (strBytes "a\nb\n") { skipEmpty := some false }) =
      ([strBytes "a", strBytes "b", []], .finished) := by decide
example : syncCollect 32 (mkSyncState (strBytes "ab") {}) = ([], .crashed) := by decide
example :
    syncCollect 32 (mkSyncState (strBytes "ab\ncd") {}) = ([strBytes "ab"], .crashed) := by
  decide
example :
    syncCollect 32 (mkSyncState (strBytes "abc") { position := some 3 }) =
      ([strBytes "abc"], .finished) := by decide

/-! ## The asynchronous `AsyncSpliterator` (chunked source)

The `BufferController` is modelled by the pair `bytes`/`bytesWritten`,
where `bytes` is the full backing region including its zero padding
(searches scan up to `bytes.length`, exactly as the class passes
`controller.bytes` to `search`).  The chunk stream is a list of chunks;
`lastReadDone` models `#lastReadResult?.done` (`none` before any read). -/

/-- `AsyncSpliteratorInit`: the shared fields plus the read high-water
mark and `autoDispose` (default `false` in the constructor). -/
structure AInit extends SInit where
  highWaterMark : Option Nat := none
  autoDispose : Option Bool := none
  deriving Repr

/-- The mutable state of an `AsyncSpliterator` together with its
`BufferController`.  `initialBufferSize` is the controller's construction
size (the high-water mark); `sourceDisposed` records whether the source's
`Symbol.asyncDispose` has been invoked. -/
structure AsyncState where
  chunks : List (List Nat)
  lastReadDone : Option Bool
  needle : List Nat
  bytes : List Nat
  bytesWritten : Nat
  initialBufferSize : Nat
  indices : List (Nat × Nat)
  indicesByteLength : Nat
  highWaterMark : Nat
  yieldDropCount : Nat
  yieldStopCount : Option Nat
  skipEmpty : Bool
  yieldCount : Nat
  lastByteRangeSeen : Option (Nat × Nat)
  autoDispose : Bool
  sourceDisposed : Bool
  done : Bool
  deriving Repr

/-- The `AsyncSpliterator` constructor over a chunk stream.  The
high-water mark is `max(needle.length * 4, init.highWaterMark ?? 4096 * 16)`
and the buffer starts as that many zero bytes. -/
def mkAsyncState (chunks : List (List Nat)) (init : AInit) : AsyncState :=
  let needle := init.delimiter.getD [10]
  let hwm := max (needle.length * 4) (init.highWaterMark.getD (4096 * 16))
  let dropCount := init.drop.getD 0
  { chunks := chunks
    lastReadDone := none
    needle := needle
    bytes := List.replicate hwm 0
    bytesWritten := 0
    initialBufferSize := hwm
    indices := []
    indicesByteLength := 0
    highWaterMark := hwm
    yieldDropCount := dropCount
    yieldStopCount := init.take.map (· + dropCount)
    skipEmpty := init.skipEmpty.getD true
    yieldCount := 0
    lastByteRangeSeen := none
    autoDispose := init.autoDispose.getD false
    sourceDisposed := false
    done := false }

/-- `IndexQueue.enqueue` on the async state. -/
def enqueueRangeA (s : AsyncState) (r : Nat × Nat) : AsyncState :=
  { s with indices := s.indices ++ [r], indicesByteLength := s.indicesByteLength + (r.2 - r.1) }

/-- `BufferController.grow`: when the desired length exceeds the current
region, reallocate and copy, leaving the new tail zeroed. -/
def controllerGrow (bytes : List Nat) (desired : Nat) : List Nat :=
  if desired ≤ bytes.length then bytes
  else bytes ++ List.replicate (desired - bytes.length) 0

/-- `BufferController.set(array, offset)`: grow as needed, overlay the
chunk at `offset`, and advance `bytesWritten` to at least the end of the
write. -/
def controllerSet (s : AsyncState) (chunk : List Nat) (offset : Nat) : AsyncState :=
  let nextLength := offset + chunk.length
  let grown := controllerGrow s.bytes nextLength
  { s with
    bytes := grown.take offset ++ chunk ++ grown.drop nextLength
    bytesWritten := max s.bytesWritten nextLength }

/-- `BufferController.compress(start)` with the default end
`max(max(bytesWritten, initialBufferSize), bytes.length)`: reslice the
region from `start` (the end bound clamps to the region length, so the
new region is the old one from `start` on) and set `bytesWritten` to
`min(bytesWritten, end - start)`. -/
def controllerCompress (s : AsyncState) (start : Nat) : AsyncState :=
  let endDefault := max (max s.bytesWritten s.initialBufferSize) s.bytes.length
  { s with
    bytes := s.bytes.drop start
    bytesWritten := min s.bytesWritten (endDefault - start) }

/-- `AsyncSpliterator.#search`: resume from just past the last enqueued
range (or `0`), and while the cursor is at or below `bytesWritten`,
search `controller.bytes` (the whole region, padding included) and
enqueue each `[cursor, delimiterIndex)`.  Fuel-indexed; the cursor
advances by at least the needle length each iteration. -/
def asyncSearch : Nat → AsyncState → AsyncState
  | 0, s => s
  | fuel + 1, s =>
    let searchCursor :=
      match s.indices.getLast? with
      | some lastByteRange => lastByteRange.2 + s.needle.length
      | none => 0
    asyncSearchLoop fuel s searchCursor
where
  /-- The `while (searchCursor <= bytesWritten)` body. -/
  asyncSearchLoop : Nat → AsyncState → Nat → AsyncState
  | 0, s, _ => s
  | fuel + 1, s, cursor =>
    if cursor ≤ s.bytesWritten then
      match chSearch s.bytes s.needle cursor with
      | .negSucc _ => s
      | .ofNat delimiterIndex =>
        asyncSearchLoop fuel (enqueueRangeA s (cursor, delimiterIndex))
          (delimiterIndex + s.needle.length)
    else s

/-- `AsyncSpliterator.#read`: pull the next chunk; on end of stream just
record the done result, otherwise append the chunk at `bytesWritten`. -/
def asyncRead (s : AsyncState) : AsyncState :=
  match s.chunks with
  | [] => { s with lastReadDone := some true }
  | chunk :: rest =>
    let s := { s with lastReadDone := some false, chunks := rest }
    controllerSet s chunk s.bytesWritten

/-- The read/search loop of `AsyncSpliterator.#fill`: while the last
read is not done and the queued byte length is below the high-water
mark, read one chunk then search.  Each iteration consumes a chunk or
marks the stream done, so the chunk count bounds the loop. -/
def asyncFillLoop : Nat → AsyncState → AsyncState
  | 0, s => s
  | fuel + 1, s =>
    if s.lastReadDone ≠ some true ∧ s.indicesByteLength < s.highWaterMark then
      let s := asyncRead s
      asyncFillLoop fuel (asyncSearch (s.bytesWritten + 2) s)
    else s

/-- `AsyncSpliterator.#fill`.  At end of stream, run the finalization
cases (mirroring the synchronous `#fill`'s end-of-source block, with
`bytesWritten` in place of the source length) and set `done`; otherwise
compress the buffer past the last emitted range and run the read/search
loop. -/
def asyncFill (s : AsyncState) : AsyncState :=
  if s.lastReadDone = some true then
    let s' :=
      match s.lastByteRangeSeen with
      | some lastByteRange =>
        if lastByteRange.2 < s.bytesWritten then
          match chSearch s.bytes s.needle (s.bytesWritten - s.needle.length) with
          | .ofNat possibleDelimiterIndex =>
            enqueueRangeA s (possibleDelimiterIndex + s.needle.length, s.bytesWritten)
          | .negSucc _ => enqueueRangeA s (lastByteRange.2 + s.needle.length, s.bytesWritten)
        else s
      | none => if s.yieldCount = 0 then enqueueRangeA s (0, s.bytesWritten) else s
    { s' with done := true }
  else
    let nextBufferStart :=
      match s.lastByteRangeSeen with
      | some lastByteRange => lastByteRange.2 + s.needle.length
      | none => 0
    asyncFillLoop (s.chunks.length + 2) (controllerCompress s nextBufferStart)

/-- `AsyncSpliterator.#finalize`: dispose the source when `autoDispose`
is set and report the terminal result.  It does not touch `done`, the
queue, or the buffer. -/
def asyncFinalize (s : AsyncState) : AsyncState :=
  if s.autoDispose then { s with sourceDisposed := true } else s

/-- `BufferController.subarray(start, end)`: `none` models the
`RangeError` thrown when `start > end` or `end > bytesWritten`. -/
def controllerSubarray (s : AsyncState) (start stop : Nat) : Option (List Nat) :=
  if start > stop then none
  else if stop > s.bytesWritten then none
  else some (listExtract s.bytes start stop)

/-- `AsyncSpliterator.next()`.  Unlike the synchronous version, an empty
dequeue sets `done` and finalizes rather than crashing; a `RangeError`
from `subarray` is modelled as a crash. -/
def asyncNext : Nat → AsyncState → StepResult × AsyncState
  | 0, s => (.fuelOut, s)
  | fuel + 1, s =>
    if s.done || (match s.yieldStopCount with | some stop => decide (stop ≤ s.yieldCount) | none => false) then
      (.finished, asyncFinalize s)
    else
      let s := if s.indices.isEmpty then asyncFill s else s
      match s.indices with
      | [] => (.finished, asyncFinalize { s with done := true })
      | r :: rest =>
        let s := { s with
          indices := rest
          indicesByteLength := s.indicesByteLength - (r.2 - r.1)
          lastByteRangeSeen := some r }
        match controllerSubarray s r.1 r.2 with
        | none => (.crashed, s)
        | some slice =>
          if slice.length = 0 ∧ s.skipEmpty then asyncNext fuel s
          else
            let s := { s with yieldCount := s.yieldCount + 1 }
            if s.yieldCount ≤ s.yieldDropCount then asyncNext fuel s
            else (.yields slice, s)

/-- `AsyncSpliterator.return()`: an alias for `#finalize`. -/
def asyncReturn (s : AsyncState) : AsyncState := asyncFinalize s

/-- `AsyncSpliterator[Symbol.asyncDispose]`: clear the index queue and
the buffer (`controller.clear` zeroes `[0, bytesWritten)` and resets
`bytesWritten`), and dispose the source when `autoDispose` is set. -/
def asyncDispose (s : AsyncState) : AsyncState :=
  { s with
    indices := []
    indicesByteLength := 0
    bytes := List.replicate s.bytesWritten 0 ++ s.bytes.drop s.bytesWritten
    bytesWritten := 0
    sourceDisposed := s.autoDispose || s.sourceDisposed }

/-- Drain the async iterator, collecting every emitted slice in order. -/
def asyncCollect : Nat → AsyncState → List (List Nat) × RunOutcome
  | 0, _ => ([], .fuelOut)
  | fuel + 1, s =>
    match asyncNext (fuel + 1) s with
    | (.yields slice, s') =>
      let (rest, outcome) := asyncCollect fuel s'
      (slice :: rest, outcome)
    | (.finished, _) => ([], .finished)
    | (.crashed, _) => ([], .crashed)
    | (.fuelOut, _) => ([], .fuelOut)

/-- Split a byte list into chunks of at most `n` bytes, for building
chunked async sources. -/
def chunksOf (n : Nat) (l : List Nat) : List (List Nat) := go l.length l
where
  /-- Fuel-indexed worker; the input length always bounds the number of
  chunks produced. -/
  go : Nat → List Nat → List (List Nat)
  | _, [] => []
  | 0, _ => []
  | fuel + 1, x :: xs => (x :: xs.take (n - 1)) :: go fuel (xs.drop (n - 1))

/-- A small high-water mark (clamped up to four needle lengths by the
constructor), keeping the modelled buffers small in concrete runs. -/
def smallInit : AInit := { highWaterMark := some 1 }

example :
    asyncCollect 32 (mkAsyncState (chunksOf 3 (strBytes "ab\ncd\nef")) { highWaterMark := some 8 }) =
      ([strBytes "ab", strBytes "cd", strBytes "ef"], .finished) := by decide
example :
    asyncCollect 32 (mkAsyncState [strBytes "a\nb\n"] smallInit) =
      ([strBytes "a", strBytes "b"], .finished) := by decide
example : asyncCollect 32 (mkAsyncState [strBytes "ab"] smallInit) = ([], .finished) := by decide

/-! ## Header canonicalization (`casing.ts`) -/

/-- JS `\w`: ASCII letters, digits, and underscore. -/
def isWordChar (c : Char) : Bool := c.isAlphanum || c = '_'

/-- The regex replace `/([A-Z])(\.+)/g → "$1"` of `smartSnakeCase`:
drop every run of periods that follows a capital letter.  Fuel-indexed
(the input length suffices). -/
def stripCapPeriods : Nat → List Char → List Char
  | 0, l => l
  | _, [] => []
  | fuel + 1, c :: rest =>
    if c.isUpper then c :: stripCapPeriods fuel (rest.dropWhile (· = '.'))
    else c :: stripCapPeriods fuel rest

/-- The regex replace `/\W{1,}/g → "_"`: collapse every maximal run of
non-word characters into a single underscore. -/
def replaceNonWordRuns : Nat → List Char → List Char
  | 0, l => l
  | _, [] => []
  | fuel + 1, c :: rest =>
    if isWordChar c then c :: replaceNonWordRuns fuel rest
    else '_' :: replaceNonWordRuns fuel (rest.dropWhile (fun d => !isWordChar d))

/-- The regex replace `/_{2,}/g → "_"`: collapse underscore runs. -/
def collapseUnderscores : Nat → List Char → List Char
  | 0, l => l
  | _, [] => []
  | fuel + 1, c :: rest =>
    if c = '_' then '_' :: collapseUnderscores fuel (rest.dropWhile (· = '_'))
    else c :: collapseUnderscores fuel rest

/-- Split into snake-case words: at non-alphanumeric characters and at
lower-to-upper camelCase boundaries.  `cur` holds the current word in
reverse. -/
def snakeWordsGo : List Char → List Char → List (List Char)
  | cur, [] => if cur.isEmpty then [] else [cur.reverse]
  | cur, c :: rest =>
    if !c.isAlphanum then
      if cur.isEmpty then snakeWordsGo [] rest else cur.reverse :: snakeWordsGo [] rest
    else if c.isUpper && (match cur with | d :: _ => d.isLower | [] => false) then
      cur.reverse :: snakeWordsGo [c] rest
    else snakeWordsGo (c :: cur) rest

/-- Join words with single underscores. -/
def joinUnderscore : List (List Char) → List Char
  | [] => []
  | [w] => w
  | w :: rest => w ++ '_' :: joinUnderscore rest

/-- Modelled from the spec: `snakeCase` is imported from the external
`change-case` package, which is not part of this repository's sources;
§4.H specifies only that a non-uppercase header is converted to
snake_case.  We model it as: split into words at non-alphanumeric
characters and lower-to-upper boundaries, lowercase each word, join with
underscores. -/
def snakeCaseModel (chars : List Char) : String :=
  ⟨joinUnderscore ((snakeWordsGo [] chars).map (List.map Char.toLower))⟩

/-- `String.prototype.trim`, at the character-list level. -/
def jsTrim (l : List Char) : List Char :=
  ((l.dropWhile Char.isWhitespace).reverse.dropWhile Char.isWhitespace).reverse

/-- `smartSnakeCase`: strip periods after capitals and trim; if the
result is uniformly uppercase, replace non-word runs in the *original*
name with single underscores (then collapse runs); otherwise convert to
snake_case. -/
def smartSnakeCase (name : String) : String :=
  let normalizedName := jsTrim (stripCapPeriods name.data.length name.data)
  if normalizedName.map Char.toUpper = normalizedName then
    let replaced := replaceNonWordRuns name.data.length name.data
    ⟨collapseUnderscores replaced.length replaced⟩
  else snakeCaseModel normalizedName

/-- JS `Set.add`: append only when absent (insertion order preserved). -/
def setInsert (l : List String) (x : String) : List String :=
  if x ∈ l then l else l ++ [x]

/-- JS `Map.set`: replace the value of an existing key, else append. -/
def mapSet : List (String × Nat) → String → Nat → List (String × Nat)
  | [], k, v => [(k, v)]
  | (k', v') :: rest, k, v =>
    if k' = k then (k, v) :: rest else (k', v') :: mapSet rest k v

/-- JS `Map.get`. -/
def mapGet (m : List (String × Nat)) (k : String) : Option Nat :=
  (m.find? fun e => e.1 = k).map (·.2)

/-- `normalizeColumnNames`: snake-case each header, then disambiguate
duplicates by appending `_2`, `_3`, ... keyed on the canonicalized
name; the result is the insertion-ordered distinct set. -/
def normalizeColumnNames (columnHeaders : List String) : List String :=
  go (columnHeaders.map smartSnakeCase) [] []
where
  /-- The loop over canonicalized names, carrying the count map and the
  distinct set. -/
  go : List String → List (String × Nat) → List String → List String
  | [], _, distinctColumns => distinctColumns
  | columnHeader :: rest, columnInputCountMap, distinctColumns =>
    if columnHeader ∈ distinctColumns then
      let headerCount := (mapGet columnInputCountMap columnHeader).getD 1 + 1
      go rest (mapSet columnInputCountMap columnHeader headerCount)
        (setInsert distinctColumns (columnHeader ++ "_" ++ toString headerCount))
    else go rest columnInputCountMap (distinctColumns ++ [columnHeader])

example : normalizeColumnNames ["A B"] = ["A_B"] := by decide
example :
    normalizeColumnNames ["Full Name", "Full Name", "Age"] =
      ["full_name", "full_name_2", "age"] := by decide

/-! ## The CSV projection (`CSVSpliterator`) -/

/-- `CSVOutputMode`. -/
inductive CSVMode where
  | array
  | object
  | entries
  deriving Repr, DecidableEq

/-- A row emitted by the CSV generator, shaped by the output mode:
an array of columns, a JS-object record (insertion-ordered key/value
pairs with overwrite semantics), or key/value/index triples. -/
inductive CSVRow where
  | arr (columns : List String)
  | obj (record : List (String × String))
  | ent (triples : List (String × String × Nat))
  deriving Repr, DecidableEq

/-- The tail of `zipSync` once the first iterator is exhausted: the
remaining right-side elements paired with `none`. -/
def zipSyncRight {α β : Type} : List β → Nat → List (Option α × Option β × Nat)
  | [], _ => []
  | b :: bs, i => (none, some b, i) :: zipSyncRight bs (i + 1)

/-- `zipSync`: pair two lists element-wise with the running index,
padding the shorter side with `undefined` (`none`), until both are
exhausted. -/
def zipSyncGo {α β : Type} : List α → List β → Nat → List (Option α × Option β × Nat)
  | [], bs, i => zipSyncRight bs i
  | a :: as, bs, i => (some a, bs.head?, i) :: zipSyncGo as bs.tail (i + 1)

/-- JS object property assignment `record[key] = value`: overwrite in
place when the key exists, else append. -/
def objSet : List (String × String) → String → String → List (String × String)
  | [], k, v => [(k, v)]
  | (k', v') :: rest, k, v =>
    if k' = k then (k, v) :: rest else (k', v') :: objSet rest k v

/-- A bound transformer entry `[columnName, transformer]`. -/
abbrev TransformerEntry := String × (String → String)

/-- `CSVSpliteratorEmitters.object`: zip the bound header entries with
the row's columns; each pair assigns `key := entry name` (or
`column_idx` past the headers) to `transform(value ?? "")`. -/
def emitObject (columns : List String) (headerColumns : List TransformerEntry) :
    List (String × String) :=
  (zipSyncGo headerColumns columns 0).foldl
    (fun record z =>
      let key := match z.1 with | some e => e.1 | none => "column_" ++ toString z.2.2
      let transform := match z.1 with | some e => e.2 | none => fun value => value
      objSet record key (transform (z.2.1.getD "")))
    []

/-- `CSVSpliteratorEmitters.entries`. -/
def emitEntries (columns : List String) (headerColumns : List TransformerEntry) :
    List (String × String × Nat) :=
  (zipSyncGo headerColumns columns 0).map fun z =>
    let key := match z.1 with | some e => e.1 | none => "column_" ++ toString z.2.2
    let transform := match z.1 with | some e => e.2 | none => fun value => value
    (key, transform (z.2.1.getD ""), z.2.2)

/-- `CSVSpliteratorInit`.  `transformers` models the positional-array
form (every claim uses the default empty array); `take = none` models
`Infinity`.  The async-only fields ride along and are ignored by the
synchronous path, as unknown init keys are in JS. -/
structure CSVInit where
  delimiter : Option (List Nat) := none
  position : Option Nat := none
  skipEmpty : Option Bool := none
  mode : Option CSVMode := none
  columnDelimiter : Option (List Nat) := none
  normalizeKeys : Option Bool := none
  header : Option Bool := none
  transformers : List TransformerEntry := []
  take : Option Nat := none
  drop : Option Nat := none
  highWaterMark : Option Nat := none

/-- JS truthiness of the possibly-undefined `normalizeKeys` in the
synchronous `from` (`normalizeKeys ? … : …` with no default). -/
def nkTruthy : Option Bool → Bool
  | some true => true
  | _ => false

/-- The header list used by `CSVSpliterator.from`: canonicalized exactly
when the (possibly undefined) `normalizeKeys` is truthy. -/
def csvFromHeaders (normalizeKeys : Option Bool) (columns : List String) : List String :=
  if nkTruthy normalizeKeys then normalizeColumnNames columns else columns

/-- The header list used by `CSVSpliterator.fromAsync`, whose
destructuring default is `normalizeKeys = mode !== "array"`. -/
def csvFromAsyncHeaders (normalizeKeys : Option Bool) (mode : CSVMode) (columns : List String) :
    List String :=
  if normalizeKeys.getD (mode ≠ CSVMode.array) then normalizeColumnNames columns else columns

/-- Binding of transformers to headers (the `Array.isArray` branch):
`zipSync(headers, transformersInput)` mapped to
`[columnName, transformer ?? identity]`.  (With a nonempty transformer
array the JS code passes the raw entry where a function is expected — a
latent type error — but every claim uses the default empty array, where
the zipped transformer side is always `undefined` and the identity is
bound.) -/
def bindTransformers (headers : List String) (tlist : List TransformerEntry) :
    List TransformerEntry :=
  (zipSyncGo headers tlist 0).map fun z =>
    (z.1.getD "", match z.2.1 with | some e => e.2 | none => fun value => value)

/-- Splitting one row into decoded columns with a fresh synchronous
`Spliterator` over the row and the column delimiter
(`new Spliterator(row, columnSpliteratorInit).toDecodedArray()`).
`none` models a crash of the column spliterator. -/
def splitColumns (row : List Nat) (columnDelimiter : List Nat) : Option (List String) :=
  match syncCollect (row.length * 2 + 16) (mkSyncState row { delimiter := some columnDelimiter }) with
  | (slices, .finished) => some (slices.map decodeAscii)
  | _ => none

/-- Result of a CSV generator run. -/
inductive CSVOut where
  | ok (rows : List CSVRow)
  | crashed
  | fuelOut
  deriving Repr, DecidableEq

/-- The data-row loop of `CSVSpliterator.from`.  Rows under `drop` are
counted and skipped; the loop breaks once `yieldCount` reaches
`yieldLimit`; an emitted row does *not* advance `yieldCount` (the
synchronous loop has no increment after its `yield`). -/
def csvFromLoop (columnDelimiter : List Nat) (mode : CSVMode)
    (transformers : List TransformerEntry) (yieldLimit : Option Nat) (dropCount : Nat) :
    Nat → SyncState → Nat → CSVOut
  | 0, _, _ => .fuelOut
  | fuel + 1, rows, yieldCount =>
    match syncNext (fuel + 1) rows with
    | (.finished, _) => .ok []
    | (.crashed, _) => .crashed
    | (.fuelOut, _) => .fuelOut
    | (.yields row, rows') =>
      if yieldCount < dropCount then
        csvFromLoop columnDelimiter mode transformers yieldLimit dropCount fuel rows' (yieldCount + 1)
      else if (match yieldLimit with | some l => decide (l ≤ yieldCount) | none => false) then
        .ok []
      else
        match splitColumns row columnDelimiter with
        | none => .crashed
        | some columns =>
          let emitted :=
            match mode with
            | .array => CSVRow.arr columns
            | .object => CSVRow.obj (emitObject columns transformers)
            | .entries => CSVRow.ent (emitEntries columns transformers)
          match csvFromLoop columnDelimiter mode transformers yieldLimit dropCount fuel rows' yieldCount with
          | .ok rest => .ok (emitted :: rest)
          | other => other

/-- The data-row loop of `CSVSpliterator.fromAsync`: identical except
that an emitted row advances `yieldCount`. -/
def csvFromAsyncLoop (columnDelimiter : List Nat) (mode : CSVMode)
    (transformers : List TransformerEntry) (yieldLimit : Option Nat) (dropCount : Nat) :
    Nat → AsyncState → Nat → CSVOut
  | 0, _, _ => .fuelOut
  | fuel + 1, rows, yieldCount =>
    match asyncNext (fuel + 1) rows with
    | (.finished, _) => .ok []
    | (.crashed, _) => .crashed
    | (.fuelOut, _) => .fuelOut
    | (.yields row, rows') =>
      if yieldCount < dropCount then
        csvFromAsyncLoop columnDelimiter mode transformers yieldLimit dropCount fuel rows' (yieldCount + 1)
      else if (match yieldLimit with | some l => decide (l ≤ yieldCount) | none => false) then
        .ok []
      else
        match splitColumns row columnDelimiter with
        | none => .crashed
        | some columns =>
          let emitted :=
            match mode with
            | .array => CSVRow.arr columns
            | .object => CSVRow.obj (emitObject columns transformers)
            | .entries => CSVRow.ent (emitEntries columns transformers)
          match csvFromAsyncLoop columnDelimiter mode transformers yieldLimit dropCount fuel rows' (yieldCount + 1) with
          | .ok rest => .ok (emitted :: rest)
          | other => other

/-- `CSVSpliterator.from` over an in-memory source: default `header`
true, `mode` array, column delimiter comma; `take`/`drop` are stripped
from the row spliterator's init; with `header`, the first row is pulled,
split, optionally canonicalized, and bound to transformers. -/
def csvFrom (source : List Nat) (init : CSVInit) : CSVOut :=
  let header := init.header.getD true
  let mode := init.mode.getD .array
  let columnDelimiter := init.columnDelimiter.getD [44]
  let dropCount := init.drop.getD 0
  let yieldLimit := init.take.map (· + dropCount)
  let rowInit : SInit :=
    { delimiter := init.delimiter, position := init.position, skipEmpty := init.skipEmpty }
  let rows := mkSyncState source rowInit
  let fuel := source.length * 2 + 16
  if header then
    match syncNext fuel rows with
    | (.finished, _) => .ok []
    | (.crashed, _) => .crashed
    | (.fuelOut, _) => .fuelOut
    | (.yields headerRow, rows') =>
      match splitColumns headerRow columnDelimiter with
      | none => .crashed
      | some columns =>
        let headers := csvFromHeaders init.normalizeKeys columns
        let transformers := bindTransformers headers init.transformers
        csvFromLoop columnDelimiter mode transformers yieldLimit dropCount fuel rows' 0
  else csvFromLoop columnDelimiter mode [] yieldLimit dropCount fuel rows 0

/-- `CSVSpliterator.fromAsync` over a chunk stream: as `csvFrom`, but
rows come from an `AsyncSpliterator` and `normalizeKeys` defaults to
`mode !== "array"`. -/
def csvFromAsync (chunks : List (List Nat)) (init : CSVInit) : CSVOut :=
  let header := init.header.getD true
  let mode := init.mode.getD .array
  let columnDelimiter := init.columnDelimiter.getD [44]
  let dropCount := init.drop.getD 0
  let yieldLimit := init.take.map (· + dropCount)
  let rowInit : AInit :=
    { delimiter := init.delimiter, position := init.position, skipEmpty := init.skipEmpty,
      highWaterMark := init.highWaterMark }
  let rows := mkAsyncState chunks rowInit
  let fuel := (chunks.map List.length).sum * 2 + 16
  if header then
    match asyncNext fuel rows with
    | (.finished, _) => .ok []
    | (.crashed, _) => .crashed
    | (.fuelOut, _) => .fuelOut
    | (.yields headerRow, rows') =>
      match splitColumns headerRow columnDelimiter with
      | none => .crashed
      | some columns =>
        let headers := csvFromAsyncHeaders init.normalizeKeys mode columns
        let transformers := bindTransformers headers init.transformers
        csvFromAsyncLoop columnDelimiter mode transformers yieldLimit dropCount fuel rows' 0
  else csvFromAsyncLoop columnDelimiter mode [] yieldLimit dropCount fuel rows 0

example :
    csvFrom (strBytes "h,\na,\nb,\nc,\n") { take := some 1 } =
      .ok [.arr ["a"], .arr ["b"], .arr ["c"]] := by decide
example :
    csvFromAsync [strBytes "h,\na,\nb,\nc,\n"] { take := some 1, highWaterMark := some 1 } =
      .ok [.arr ["a"]] := by decide
example :
    csvFrom (strBytes "A B,\nx,\n") { mode := some .object } =
      .ok [.obj [("A B", "x")]] := by decide
example :
    csvFrom (strBytes "h,\nx,y,\n") { mode := some .object } =
      .ok [.obj [("h", "x"), ("column_1", "y")]] := by decide

/-! ## The parallel chunk planner (`DelimitedChunkReader.fromAsync`)

The planner drives two `AsyncSlidingWindow`s per boundary.  `previous()`
scans `start` downward from the cursor and matches when the bytes in
`[start - d, start)` equal the delimiter, returning the delimiter start;
`next()` scans `end` upward below the window limit and matches the bytes
in `[end, end + d)`, falling back to the final window `[cursor, limit]`.
The call site passes the window bound under the key `byteLength`; we
bind it as the limit of the forward scan (the planner's fix-up writes
overwrite every interior end, so the claim's instance is insensitive to
this bound).  Reads that would start below zero are modelled by the
clamped extract, which cannot equal the delimiter. -/

/-- The descending scan of `AsyncSlidingWindow.previous()`: the first
candidate `start ≤ cursor` with `start ≥ 1` whose preceding
`delimiterLength` bytes match, reported as the delimiter start. -/
def prevScan (source needle : List Nat) : Nat → Option Nat
  | 0 => none
  | start + 1 =>
    if listExtract source (start + 1 - needle.length) (start + 1) = needle then
      some (start + 1 - needle.length)
    else prevScan source needle start

/-- The ascending scan of `AsyncSlidingWindow.next()` below the limit;
fuel is the number of candidate positions. -/
def nextScanGo (source needle : List Nat) : Nat → Nat → Option Nat
  | 0, _ => none
  | fuel + 1, endPos =>
    if listExtract source endPos (endPos + needle.length) = needle then some endPos
    else nextScanGo source needle fuel (endPos + 1)

/-- `AsyncSlidingWindow.next()` for a fresh window at `cursor` with
byte limit `limit`: the first delimiter range `[cursor, delimStart)`, or
the final window `[cursor, limit]` when no delimiter is found. -/
def windowNext (source needle : List Nat) (cursor limit : Nat) : Option (Nat × Nat) :=
  match nextScanGo source needle (limit - cursor) cursor with
  | some delimStart => some (cursor, delimStart)
  | none => if cursor ≤ limit then some (cursor, limit) else none

/-- `AsyncSlidingWindow.previous()` for a fresh window at `cursor`:
the start of the nearest delimiter ending at or before the cursor. -/
def windowPrevious (source needle : List Nat) (cursor : Nat) : Option Nat :=
  prevScan source needle cursor

/-- The planner loop of `DelimitedChunkReader.fromAsync`.  Per
iteration `i`: fix the search window around the target boundary
`i * chunkSize`, run the backward and forward window scans, and
— except at `i = 0`, which pushes the forward range as the first slice —
rewrite the previous slice's end to `delimStart - delimiterLength` and
push the next slice starting at `delimStart + delimiterLength`; the last
slice instead extends to the byte limit.  A failed window scan breaks
the loop. -/
def planGo (source needle : List Nat) (byteLimit delimiterLength chunkSize desiredSlices : Nat) :
    Nat → Nat → List (Nat × Nat) → List (Nat × Nat)
  | 0, _, ranges => ranges
  | fuel + 1, i, ranges =>
    if i < desiredSlices then
      let previousSlice := ranges.getD (i - 1) (0, 0)
      let chunkEnd := min (i * chunkSize) byteLimit
      let searchStart := max (chunkEnd - delimiterLength * 2) previousSlice.2
      let searchEnd := min (chunkEnd + delimiterLength * 2) byteLimit
      let previousRange := windowPrevious source needle searchStart
      let nextRange := windowNext source needle searchStart searchEnd
      if i = 0 then
        match nextRange with
        | some r =>
          planGo source needle byteLimit delimiterLength chunkSize desiredSlices fuel (i + 1)
            (ranges ++ [r])
        | none => ranges
      else
        match previousRange, nextRange with
        | some delimStart, some r =>
          if i = desiredSlices - 1 then
            let range := (delimStart + delimiterLength, byteLimit)
            ((ranges.set (i - 1) (previousSlice.1, delimStart - delimiterLength)) ++ [range])
          else
            planGo source needle byteLimit delimiterLength chunkSize desiredSlices fuel (i + 1)
              ((ranges.set (i - 1) (previousSlice.1, delimStart - delimiterLength)) ++
                [(delimStart + delimiterLength, r.2)])
        | _, _ => ranges
    else ranges

/-- `DelimitedChunkReader.fromAsync` over a source of known size.  The
desired slice count is clamped to
`min(max(1, chunks), byteLimit / delimiterLength, byteLimit)` (the JS
division is a float; it is exact on the claim's instance), and a single
slice short-circuits to the whole range. -/
def delimitedChunkRanges (source needle : List Nat) (chunks : Nat) : List (Nat × Nat) :=
  let byteLimit := source.length
  let delimiterLength := needle.length
  let desiredSlices := min (min (max 1 chunks) (byteLimit / delimiterLength)) byteLimit
  if desiredSlices = 1 then [(0, byteLimit)]
  else
    let chunkSize := byteLimit / desiredSlices
    let ranges := planGo source needle byteLimit delimiterLength chunkSize desiredSlices
      (desiredSlices + 1) 0 []
    if ranges.isEmpty then [(0, byteLimit)] else ranges

/-- The 1000-byte source of §8 scenario 5: line feeds at positions
100, 250, 500, and 750, all other bytes `a`. -/
def plannerExampleSource : List Nat :=
  List.replicate 100 97 ++ [10] ++ List.replicate 149 97 ++ [10] ++
    List.replicate 249 97 ++ [10] ++ List.replicate 249 97 ++ [10] ++ List.replicate 249 97

example : plannerExampleSource.length = 1000 := by decide
example : listExtract plannerExampleSource 100 101 = [10] := by decide
example : listExtract plannerExampleSource 750 751 = [10] := by decide

/-! ## Correctness of the Boyer-Moore-Horspool search -/

lemma length_listExtract (l : List Nat) (lo hi : Nat) :
    (listExtract l lo hi).length = min (hi - lo) (l.length - lo) := by
  simp [listExtract]

lemma getElem_listExtract (l : List Nat) (lo hi i : Nat)
    (hlt : i < (listExtract l lo hi).length) (hli : lo + i < l.length) :
    (listExtract l lo hi)[i] = l[lo + i] := by
  simp only [listExtract] at hlt ⊢
  rw [List.getElem_take, List.getElem_drop]

lemma getD_eq_getElem (l : List Nat) (i : Nat) (hlt : i < l.length) :
    l.getD i 0 = l[i] := by
  simp [List.getD_eq_getElem?_getD, List.getElem?_eq_getElem hlt]

/-- `listExtract` equality unfolds to the pointwise byte agreement that
the right-to-left comparison loop checks. -/
lemma listExtract_eq_iff (h D : List Nat) (w : Nat) (hw : w + D.length ≤ h.length) :
    listExtract h w (w + D.length) = D ↔
      ∀ i, i < D.length → h.getD (w + i) 0 = D.getD i 0 := by
  have hlen : (listExtract h w (w + D.length)).length = D.length := by
    rw [length_listExtract]; omega
  constructor
  · intro heq i hi
    have hih : w + i < h.length := by omega
    have hib : i < (listExtract h w (w + D.length)).length := by omega
    rw [getD_eq_getElem h (w + i) hih, getD_eq_getElem D i hi]
    have h1 : (listExtract h w (w + D.length))[i] = h[w + i] :=
      getElem_listExtract h w (w + D.length) i hib hih
    have h2 : (listExtract h w (w + D.length))[i] = D[i] :=
      List.getElem_of_eq heq hib
    rw [← h1]
    exact h2
  · intro hpt
    apply List.ext_getElem hlen
    intro i hi1 hi2
    have hih : w + i < h.length := by omega
    have := hpt i hi2
    rw [getD_eq_getElem h (w + i) hih, getD_eq_getElem D i hi2] at this
    rw [getElem_listExtract h w (w + D.length) i hi1 hih]
    exact this

lemma matchesAt_true_iff (h D : List Nat) (w : Nat) (hw : w + D.length ≤ h.length) :
    matchesAt h D w = true ↔ occursAt h D w := by
  unfold matchesAt occursAt
  rw [List.all_eq_true, listExtract_eq_iff h D w hw]
  constructor
  · intro hall
    refine ⟨hw, fun i hi => ?_⟩
    have := hall i (List.mem_range.mpr hi)
    exact of_decide_eq_true this
  · intro ⟨_, hpt⟩ i hi
    exact decide_eq_true (hpt i (List.mem_range.mp hi))

lemma skipOf_foldl_le (needle : List Nat) (b : Nat) (l : List Nat) (acc : Nat)
    (hacc : acc ≤ needle.length) :
    l.foldl (fun acc i => if needle.getD i 0 = b then needle.length - 1 - i else acc) acc ≤
      needle.length := by
  induction l generalizing acc with
  | nil => simpa using hacc
  | cons x xs ih =>
    simp only [List.foldl_cons]
    apply ih
    split
    · omega
    · exact hacc

/-- Every jump-table entry is bounded by the needle length. -/
lemma skipOf_le (needle : List Nat) (b : Nat) : skipOf needle b ≤ needle.length :=
  skipOf_foldl_le needle b _ _ le_rfl

lemma skipOf_foldl_ge_one (needle : List Nat) (b : Nat) (l : List Nat) (acc : Nat)
    (hacc : 1 ≤ acc) (hl : ∀ i ∈ l, i < needle.length - 1) :
    1 ≤ l.foldl (fun acc i => if needle.getD i 0 = b then needle.length - 1 - i else acc) acc := by
  induction l generalizing acc with
  | nil => simpa using hacc
  | cons x xs ih =>
    simp only [List.foldl_cons]
    apply ih
    · split
      · have := hl x (by simp)
        omega
      · exact hacc
    · intro i hi
      exact hl i (by simp [hi])

/-- With a nonempty needle every jump-table entry is at least one, so
each window advance makes progress. -/
lemma one_le_skipOf (needle : List Nat) (b : Nat) (hn : 1 ≤ needle.length) :
    1 ≤ skipOf needle b := by
  apply skipOf_foldl_ge_one needle b _ _ hn
  intro i hi
  exact List.mem_range.mp hi

lemma skipOf_foldl_upper (needle : List Nat) (b : Nat) (t : Nat) (l : List Nat) (acc : Nat)
    (hacc : acc ≤ t) (hl : ∀ j ∈ l, needle.length - 1 - j ≤ t) :
    l.foldl (fun acc i => if needle.getD i 0 = b then needle.length - 1 - i else acc) acc ≤ t := by
  induction l generalizing acc with
  | nil => simpa using hacc
  | cons x xs ih =>
    simp only [List.foldl_cons]
    apply ih
    · split
      · exact hl x (by simp)
      · exact hacc
    · intro j hj
      exact hl j (by simp [hj])

/-- When byte `b` appears in the needle's interior at index `i`, the
jump-table entry of `b` is at most `needle.length - 1 - i` (the table
keeps the entry of the rightmost such index). -/
lemma skipOf_le_of_getD (needle : List Nat) (b : Nat) (i : Nat)
    (hi : i < needle.length - 1) (hb : needle.getD i 0 = b) :
    skipOf needle b ≤ needle.length - 1 - i := by
  unfold skipOf
  have hrange : List.range (needle.length - 1) =
      List.range (i + 1) ++ (List.range (needle.length - 1 - (i + 1))).map ((i + 1) + ·) := by
    rw [← List.range_add]
    congr 1
    omega
  rw [hrange, List.foldl_append]
  apply skipOf_foldl_upper
  · rw [List.range_succ, List.foldl_append]
    simp only [List.foldl_cons, List.foldl_nil]
    rw [hb, if_pos rfl]
  · intro j hj
    rcases List.mem_map.mp hj with ⟨k, _, rfl⟩
    omega

/-- The Horspool shift never jumps past an occurrence: if the window at
`w` is in range and `D` occurs at some `j > w`, the shifted window start
is still at most `j`. -/
lemma skip_no_overshoot (h D : List Nat) (w j : Nat) (hD : 1 ≤ D.length)
    (_hw : w + D.length ≤ h.length) (hocc : occursAt h D j) (hwj : w < j) :
    w + skipOf D (h.getD (w + D.length - 1) 0) ≤ j := by
  by_cases hfar : w + D.length ≤ j
  · have := skipOf_le D (h.getD (w + D.length - 1) 0)
    omega
  · -- the window's last byte lies inside the occurrence at `j`
    have hjlen : j + D.length ≤ h.length := hocc.1
    have hpt := (matchesAt_true_iff h D j hjlen).mpr hocc
    unfold matchesAt at hpt
    rw [List.all_eq_true] at hpt
    have hi : w + D.length - 1 - j < D.length - 1 := by omega
    have hbyte := hpt (w + D.length - 1 - j) (List.mem_range.mpr (by omega))
    have hbyte' : h.getD (j + (w + D.length - 1 - j)) 0 = D.getD (w + D.length - 1 - j) 0 :=
      of_decide_eq_true hbyte
    have hidx : j + (w + D.length - 1 - j) = w + D.length - 1 := by omega
    rw [hidx] at hbyte'
    have := skipOf_le_of_getD D (h.getD (w + D.length - 1) 0) (w + D.length - 1 - j) hi hbyte'.symm
    omega

/-- The loop invariant of the window scan: with adequate fuel, a found
index is the first occurrence at or after the start, and `-1` means no
occurrence at or after the start exists at all. -/
lemma bmhSearchGo_spec (h D : List Nat) (hD : 1 ≤ D.length) :
    ∀ fuel start, h.length + 1 ≤ fuel + start →
      (∀ k : Nat, bmhSearchGo h D h.length fuel start = Int.ofNat k →
          occursAt h D k ∧ start ≤ k ∧ ∀ j, start ≤ j → j < k → ¬ occursAt h D j) ∧
      (bmhSearchGo h D h.length fuel start = -1 →
          ∀ j, start ≤ j → ¬ occursAt h D j) := by
  intro fuel
  induction fuel with
  | zero =>
    intro start hfuel
    constructor
    · intro k hk
      simp [bmhSearchGo] at hk
    · intro hk j hj hocc
      have := hocc.1
      omega
  | succ fuel ih =>
    intro start hfuel
    by_cases hwin : start + D.length ≤ h.length
    · by_cases hmat : matchesAt h D start = true
      · have hres : bmhSearchGo h D h.length (fuel + 1) start = (start : Int) := by
          conv_lhs => unfold bmhSearchGo
          rw [if_pos hwin, if_pos hmat]
        constructor
        · intro k hk
          rw [hres] at hk
          have hks : k = start := Int.ofNat.inj hk.symm
          subst hks
          exact ⟨(matchesAt_true_iff h D k hwin).mp hmat, le_rfl, fun j h1 h2 _ => by omega⟩
        · intro hk
          rw [hres] at hk
          exact absurd hk (by simp)
      · have hres : bmhSearchGo h D h.length (fuel + 1) start =
            bmhSearchGo h D h.length fuel
              (start + skipOf D (h.getD (start + D.length - 1) 0)) := by
          conv_lhs => unfold bmhSearchGo
          rw [if_pos hwin, if_neg hmat]
        generalize hbg : skipOf D (h.getD (start + D.length - 1) 0) = sk at hres
        have hskip1 : 1 ≤ sk := hbg ▸ one_le_skipOf D (h.getD (start + D.length - 1) 0) hD
        have hadq : h.length + 1 ≤ fuel + (start + sk) := by omega
        have ihs := ih (start + sk) hadq
        have hgap : ∀ j, start ≤ j → j < start + sk → ¬ occursAt h D j := by
          intro j hj1 hj2 hocc
          rcases Nat.eq_or_lt_of_le hj1 with rfl | hlt
          · exact hmat ((matchesAt_true_iff h D start hwin).mpr hocc)
          · have hno := skip_no_overshoot h D start j hD hwin hocc hlt
            rw [hbg] at hno
            omega
        constructor
        · intro k hk
          rw [hres] at hk
          obtain ⟨hocc, hge, hnone⟩ := ihs.1 k hk
          refine ⟨hocc, by omega, fun j hj1 hj2 hocc' => ?_⟩
          by_cases hj3 : j < start + sk
          · exact hgap j hj1 hj3 hocc'
          · exact hnone j (by omega) hj2 hocc'
        · intro hk j hj hocc
          rw [hres] at hk
          by_cases hj3 : j < start + sk
          · exact hgap j hj hj3 hocc
          · exact ihs.2 hk j (by omega) hocc
    · have hres : bmhSearchGo h D h.length (fuel + 1) start = -1 := by
        conv_lhs => unfold bmhSearchGo
        rw [if_neg hwin]
      constructor
      · intro k hk
        rw [hres] at hk
        exact absurd hk (by simp)
      · intro _ j hj hocc
        have := hocc.1
        omega

/-- C3: For every needle `D` with `|D| ≥ 1`, haystack `h`, and start
position `p`, if `CharacterSequence.search(h, p)` returns `k` (not
`-1`) then the bytes `h[k .. k+|D|)` equal `D` and no occurrence of `D`
starts at any position in `[p, k)`; and if it returns `-1` then no
occurrence of `D` starts at any position in `[p, |h| - |D|]`. -/
theorem characterSequence_search_correct (h D : List Nat) (p : Nat) (hD : 1 ≤ D.length) :
    (∀ k : Nat, chSearch h D p = Int.ofNat k →
        occursAt h D k ∧ p ≤ k ∧ ∀ j, p ≤ j → j < k → ¬ occursAt h D j) ∧
    (chSearch h D p = -1 →
        ∀ j, p ≤ j → j + D.length ≤ h.length → ¬ occursAt h D j) := by
  have hspec := bmhSearchGo_spec h D hD (h.length + 1) p (by omega)
  unfold chSearch
  exact ⟨hspec.1, fun hneg j hj _ => hspec.2 hneg j hj⟩

/-- Witness for `characterSequence_search_correct`: on the haystack
`"a\nb"` with needle `"\n"` and start `0`, the search returns `1`, which
is an occurrence. -/
theorem characterSequence_search_correct_witness :
    1 ≤ ([10] : List Nat).length ∧ chSearch [97, 10, 98] [10] 0 = Int.ofNat 1 ∧
      occursAt [97, 10, 98] [10] 1 :=
  ⟨by decide, by decide,
    ((characterSequence_search_correct [97, 10, 98] [10] 0 (by decide)).1 1 (by decide)).1⟩

/-! ## Empty-slice skipping under the default `skipEmpty` -/

@[simp] lemma enqueueRange_skipEmpty (s : SyncState) (r : Nat × Nat) :
    (enqueueRange s r).skipEmpty = s.skipEmpty := rfl

@[simp] lemma syncFillLoop_skipEmpty (fuel : Nat) (s : SyncState) :
    (syncFillLoop fuel s).skipEmpty = s.skipEmpty := by
  induction fuel generalizing s with
  | zero => rfl
  | succ fuel ih =>
    unfold syncFillLoop
    split
    · split
      · rfl
      · rw [ih]
        rfl
    · rfl

@[simp] lemma syncFill_skipEmpty (s : SyncState) :
    (syncFill s).skipEmpty = s.skipEmpty := by
  unfold syncFill
  dsimp only
  split
  · split
    · split
      · split <;> rfl
      · rfl
    · split <;> rfl
  · rw [syncFillLoop_skipEmpty]

lemma syncNext_skipEmpty (fuel : Nat) (s : SyncState) :
    (syncNext fuel s).2.skipEmpty = s.skipEmpty := by
  induction fuel generalizing s with
  | zero => rfl
  | succ fuel ih =>
    unfold syncNext
    split
    · rfl
    · have hs1 : (if s.indices.isEmpty then syncFill s else s).skipEmpty = s.skipEmpty := by
        split
        · exact syncFill_skipEmpty s
        · rfl
      generalize hgen : (if s.indices.isEmpty then syncFill s else s) = s1
      rw [hgen] at hs1
      dsimp only
      split
      · exact hs1
      · split
        · rw [ih]
          exact hs1
        · split
          · rw [ih]
            exact hs1
          · exact hs1

/-- With `skipEmpty` set, `next()` never returns an empty slice: the
empty-slice branch recurses instead of yielding. -/
lemma syncNext_yield_nonempty (fuel : Nat) :
    ∀ (s : SyncState) (slice : List Nat) (s' : SyncState), s.skipEmpty = true →
      syncNext fuel s = (.yields slice, s') → slice ≠ [] := by
  induction fuel with
  | zero => intro s slice s' _ h; simp [syncNext] at h
  | succ fuel ih =>
    intro s slice s' hse h
    unfold syncNext at h
    split at h
    · simp at h
    · have hs1 : (if s.indices.isEmpty then syncFill s else s).skipEmpty = true := by
        split
        · exact (syncFill_skipEmpty s).trans hse
        · exact hse
      generalize hgen : (if s.indices.isEmpty then syncFill s else s) = s1 at h hs1
      dsimp only at h
      split at h
      · simp at h
      · split at h
        · exact ih _ _ _ (by exact hs1) h
        · rename_i hnotskip
          split at h
          · exact ih _ _ _ (by exact hs1) h
          · simp only [Prod.mk.injEq, StepResult.yields.injEq] at h
            obtain ⟨rfl, -⟩ := h
            intro hemp
            apply hnotskip
            exact ⟨by rw [hemp]; rfl, hs1⟩

/-- Every slice collected under `skipEmpty = true` is nonempty. -/
lemma syncCollect_nonempty (fuel : Nat) :
    ∀ (s : SyncState), s.skipEmpty = true →
      ∀ slice ∈ (syncCollect fuel s).1, slice ≠ [] := by
  induction fuel with
  | zero => intro s _ slice h; simp [syncCollect] at h
  | succ fuel ih =>
    intro s hse slice hmem
    unfold syncCollect at hmem
    rcases hnext : syncNext (fuel + 1) s with ⟨res, s'⟩
    rw [hnext] at hmem
    cases res with
    | yields slice0 =>
      dsimp only at hmem
      rcases hcol : syncCollect fuel s' with ⟨rest, outcome⟩
      rw [hcol] at hmem
      simp only [List.mem_cons] at hmem
      rcases hmem with rfl | htail
      · exact syncNext_yield_nonempty (fuel + 1) s _ _ hse hnext
      · have hs' : s'.skipEmpty = true := by
          have hpres := syncNext_skipEmpty (fuel + 1) s
          rw [hnext] at hpres
          exact hpres.trans hse
        have := ih s' hs' slice
        rw [hcol] at this
        exact this htail
    | finished => simp at hmem
    | crashed => simp at hmem
    | fuelOut => simp at hmem

@[simp] lemma enqueueRangeA_skipEmpty (s : AsyncState) (r : Nat × Nat) :
    (enqueueRangeA s r).skipEmpty = s.skipEmpty := rfl

@[simp] lemma controllerSet_skipEmpty (s : AsyncState) (chunk : List Nat) (offset : Nat) :
    (controllerSet s chunk offset).skipEmpty = s.skipEmpty := rfl

@[simp] lemma controllerCompress_skipEmpty (s : AsyncState) (start : Nat) :
    (controllerCompress s start).skipEmpty = s.skipEmpty := rfl

@[simp] lemma asyncRead_skipEmpty (s : AsyncState) :
    (asyncRead s).skipEmpty = s.skipEmpty := by
  unfold asyncRead
  split
  · rfl
  · rfl

@[simp] lemma asyncSearchLoop_skipEmpty (fuel : Nat) (s : AsyncState) (cursor : Nat) :
    (asyncSearch.asyncSearchLoop fuel s cursor).skipEmpty = s.skipEmpty := by
  induction fuel generalizing s cursor with
  | zero => rfl
  | succ fuel ih =>
    unfold asyncSearch.asyncSearchLoop
    split
    · split
      · rfl
      · rw [ih]
        rfl
    · rfl

@[simp] lemma asyncSearch_skipEmpty (fuel : Nat) (s : AsyncState) :
    (asyncSearch fuel s).skipEmpty = s.skipEmpty := by
  unfold asyncSearch
  split
  · rfl
  · rw [asyncSearchLoop_skipEmpty]

@[simp] lemma asyncFillLoop_skipEmpty (fuel : Nat) (s : AsyncState) :
    (asyncFillLoop fuel s).skipEmpty = s.skipEmpty := by
  induction fuel generalizing s with
  | zero => rfl
  | succ fuel ih =>
    unfold asyncFillLoop
    split
    · rw [ih, asyncSearch_skipEmpty, asyncRead_skipEmpty]
    · rfl

@[simp] lemma asyncFill_skipEmpty (s : AsyncState) :
    (asyncFill s).skipEmpty = s.skipEmpty := by
  unfold asyncFill
  split
  · split
    · split
      · split <;> rfl
      · rfl
    · split <;> rfl
  · rw [asyncFillLoop_skipEmpty]
    rfl

@[simp] lemma asyncFinalize_skipEmpty (s : AsyncState) :
    (asyncFinalize s).skipEmpty = s.skipEmpty := by
  unfold asyncFinalize
  split <;> rfl

lemma asyncNext_skipEmpty (fuel : Nat) (s : AsyncState) :
    (asyncNext fuel s).2.skipEmpty = s.skipEmpty := by
  induction fuel generalizing s with
  | zero => rfl
  | succ fuel ih =>
    unfold asyncNext
    split
    · exact asyncFinalize_skipEmpty s
    · have hs1 : (if s.indices.isEmpty then asyncFill s else s).skipEmpty = s.skipEmpty := by
        split
        · exact asyncFill_skipEmpty s
        · rfl
      generalize hgen : (if s.indices.isEmpty then asyncFill s else s) = s1
      rw [hgen] at hs1
      dsimp only
      split
      · rw [asyncFinalize_skipEmpty]
        exact hs1
      · split
        · exact hs1
        · split
          · rw [ih]
            exact hs1
          · split
            · rw [ih]
              exact hs1
            · exact hs1

/-- The asynchronous `next()` never returns an empty slice when
`skipEmpty` is set. -/
lemma asyncNext_yield_nonempty (fuel : Nat) :
    ∀ (s : AsyncState) (slice : List Nat) (s' : AsyncState), s.skipEmpty = true →
      asyncNext fuel s = (.yields slice, s') → slice ≠ [] := by
  induction fuel with
  | zero => intro s slice s' _ h; simp [asyncNext] at h
  | succ fuel ih =>
    intro s slice s' hse h
    unfold asyncNext at h
    split at h
    · simp at h
    · have hs1 : (if s.indices.isEmpty then asyncFill s else s).skipEmpty = true := by
        split
        · exact (asyncFill_skipEmpty s).trans hse
        · exact hse
      generalize hgen : (if s.indices.isEmpty then asyncFill s else s) = s1 at h hs1
      dsimp only at h
      split at h
      · simp at h
      · split at h
        · simp at h
        · split at h
          · exact ih _ _ _ (by exact hs1) h
          · rename_i hnotskip
            split at h
            · exact ih _ _ _ (by exact hs1) h
            · simp only [Prod.mk.injEq, StepResult.yields.injEq] at h
              obtain ⟨rfl, -⟩ := h
              intro hemp
              apply hnotskip
              exact ⟨by rw [hemp]; rfl, hs1⟩

/-- Every slice collected asynchronously under `skipEmpty = true` is
nonempty. -/
lemma asyncCollect_nonempty (fuel : Nat) :
    ∀ (s : AsyncState), s.skipEmpty = true →
      ∀ slice ∈ (asyncCollect fuel s).1, slice ≠ [] := by
  induction fuel with
  | zero => intro s _ slice h; simp [asyncCollect] at h
  | succ fuel ih =>
    intro s hse slice hmem
    unfold asyncCollect at hmem
    rcases hnext : asyncNext (fuel + 1) s with ⟨res, s'⟩
    rw [hnext] at hmem
    cases res with
    | yields slice0 =>
      dsimp only at hmem
      rcases hcol : asyncCollect fuel s' with ⟨rest, outcome⟩
      rw [hcol] at hmem
      simp only [List.mem_cons] at hmem
      rcases hmem with rfl | htail
      · exact asyncNext_yield_nonempty (fuel + 1) s _ _ hse hnext
      · have hs' : s'.skipEmpty = true := by
          have hpres := asyncNext_skipEmpty (fuel + 1) s
          rw [hnext] at hpres
          exact hpres.trans hse
        have := ih s' hs' slice
        rw [hcol] at this
        exact this htail
    | finished => simp at hmem
    | crashed => simp at hmem
    | fuelOut => simp at hmem

/-! ## Structure of the `object` emitter -/

lemma zipSyncRight_eq {α β : Type} (bs : List β) (i : Nat) :
    zipSyncRight (α := α) bs i =
      (List.range bs.length).map fun j => (none, bs[j]?, i + j) := by
  induction bs generalizing i with
  | nil => rfl
  | cons b bs ih =>
    simp only [zipSyncRight, List.length_cons, List.range_succ_eq_map, List.map_cons,
      List.map_map, ih]
    congr 1
    · simp
    · apply List.map_congr_left
      intro j _
      simp only [Function.comp_apply, List.getElem?_cons_succ, Prod.mk.injEq, true_and]
      omega

/-- `zipSync` pairs positionally: element `j` of the zip of `as` and
`bs` starting at index `i` is `(as[j]?, bs[j]?, i + j)`. -/
lemma zipSyncGo_eq {α β : Type} (as : List α) (bs : List β) (i : Nat) :
    zipSyncGo as bs i =
      (List.range (max as.length bs.length)).map fun j => (as[j]?, bs[j]?, i + j) := by
  induction as generalizing bs i with
  | nil =>
    simp only [zipSyncGo, List.length_nil, Nat.zero_max, zipSyncRight_eq]
    apply List.map_congr_left
    intro j _
    simp
  | cons a as ih =>
    have hmax : max (as.length + 1) bs.length = max as.length bs.tail.length + 1 := by
      cases bs with
      | nil => simp
      | cons b bs => simp [Nat.succ_max_succ]
    simp only [zipSyncGo, List.length_cons, hmax, List.range_succ_eq_map, List.map_cons,
      List.map_map, ih]
    congr 1
    · simp [List.head?_eq_getElem?]
    · apply List.map_congr_left
      intro j _
      cases bs with
      | nil => simp [Function.comp]; omega
      | cons b bs => simp [Function.comp]; omega

lemma objSet_keys (record : List (String × String)) (k v : String) :
    ∀ kv ∈ objSet record k v, kv.1 = k ∨ kv.1 ∈ record.map Prod.fst := by
  induction record with
  | nil => intro kv hkv; simp [objSet] at hkv; simp [hkv]
  | cons e rest ih =>
    intro kv hkv
    unfold objSet at hkv
    split at hkv
    · rcases List.mem_cons.mp hkv with rfl | htail
      · left; rfl
      · right
        rw [List.map_cons, List.mem_cons]
        right
        exact List.mem_map_of_mem Prod.fst htail
    · rcases List.mem_cons.mp hkv with rfl | htail
      · right
        rw [List.map_cons, List.mem_cons]
        left
        rfl
      · rcases ih kv htail with hk | hmem
        · left; exact hk
        · right
          rw [List.map_cons, List.mem_cons]
          right
          exact hmem

lemma foldl_objSet_keys (l : List (String × String)) :
    ∀ (init : List (String × String)) (kv : String × String),
      kv ∈ l.foldl (fun record z => objSet record z.1 z.2) init →
        kv.1 ∈ init.map Prod.fst ∨ kv.1 ∈ l.map Prod.fst := by
  induction l with
  | nil => intro init kv h; left; exact List.mem_map_of_mem Prod.fst h
  | cons z rest ih =>
    intro init kv h
    simp only [List.foldl_cons] at h
    rcases ih (objSet init z.1 z.2) kv h with hinit | hrest
    · rcases List.mem_map.mp hinit with ⟨kv', hkv', hfst⟩
      rcases objSet_keys init z.1 z.2 kv' hkv' with hk | hmem
      · right
        rw [List.map_cons, List.mem_cons]
        left
        rw [← hfst, hk]
      · left; rw [← hfst]; exact hmem
    · right
      rw [List.map_cons, List.mem_cons]
      right
      exact hrest

lemma objSet_of_not_mem (record : List (String × String)) (k v : String)
    (h : k ∉ record.map Prod.fst) : objSet record k v = record ++ [(k, v)] := by
  induction record with
  | nil => rfl
  | cons e rest ih =>
    unfold objSet
    split
    · rename_i hek
      exact absurd (by rw [List.map_cons, List.mem_cons]; left; exact hek.symm) h
    · rw [ih (by
        intro hmem
        apply h
        rw [List.map_cons, List.mem_cons]
        right
        exact hmem)]
      rfl

lemma foldl_objSet_of_nodup (l : List (String × String)) :
    ∀ (init : List (String × String)), (l.map Prod.fst).Nodup →
      (∀ kv ∈ l, kv.1 ∉ init.map Prod.fst) →
      l.foldl (fun record z => objSet record z.1 z.2) init = init ++ l := by
  induction l with
  | nil => intro init _ _; simp
  | cons z rest ih =>
    intro init hnod hdisj
    rw [List.map_cons] at hnod
    obtain ⟨hzout, hrestnod⟩ := List.nodup_cons.mp hnod
    simp only [List.foldl_cons]
    rw [objSet_of_not_mem init z.1 z.2 (hdisj z (by simp))]
    rw [ih (init ++ [z]) hrestnod]
    · simp
    · intro kv hkv
      simp only [List.map_append, List.mem_append]
      rintro (hin | hz)
      · exact hdisj kv (by simp [hkv]) hin
      · have hne : kv.1 ≠ z.1 := by
          intro heq
          exact hzout (heq ▸ List.mem_map_of_mem Prod.fst hkv)
        simp only [List.map_cons, List.map_nil, List.mem_singleton] at hz
        exact hne hz

/-- The object emitter as a fold of JS-object assignments over the
positional assignment list. -/
lemma emitObject_eq_foldl_assign (columns : List String) (headerColumns : List TransformerEntry) :
    emitObject columns headerColumns =
      ((zipSyncGo headerColumns columns 0).map fun z =>
          ((match z.1 with | some e => e.1 | none => "column_" ++ toString z.2.2),
            (match z.1 with | some e => e.2 | none => fun value => value) (z.2.1.getD ""))).foldl
        (fun record kv => objSet record kv.1 kv.2) [] := by
  unfold emitObject
  rw [List.foldl_map]

lemma range_map_header_names (l : List TransformerEntry) (d : Nat → String) :
    (List.range l.length).map (fun j => match l[j]? with | some e => e.1 | none => d j) =
      l.map Prod.fst := by
  apply List.ext_getElem (by simp)
  intro i h1 h2
  simp only [List.getElem_map, List.getElem_range]
  rw [List.getElem?_eq_getElem (by simpa using h1)]

/-- C7 (amended): with `header = true` and `mode = object`, every key of
an emitted record is either a bound header name or `column_i` for an
extra column at index `i` at or beyond the header count; and when a data
row has fewer columns than headers (with distinct header names), each
trailing header key is *present*, bound to its transformer applied to
the empty string — not absent or `undefined`. -/
theorem emitObject_keys_and_missing_columns (columns : List String)
    (headerColumns : List TransformerEntry) :
    (∀ kv ∈ emitObject columns headerColumns,
        (∃ e ∈ headerColumns, kv.1 = e.1) ∨
          ∃ idx, headerColumns.length ≤ idx ∧ idx < columns.length ∧
            kv.1 = "column_" ++ toString idx) ∧
    ((headerColumns.map Prod.fst).Nodup → columns.length ≤ headerColumns.length →
      ∀ idx, columns.length ≤ idx → ∀ hidx : idx < headerColumns.length,
        (emitObject columns headerColumns)[idx]? =
          some ((headerColumns[idx]).1, (headerColumns[idx]).2 "")) := by
  constructor
  · intro kv hkv
    rw [emitObject_eq_foldl_assign] at hkv
    rcases foldl_objSet_keys _ [] kv hkv with hnil | hmem
    · simp at hnil
    · rw [List.map_map] at hmem
      rcases List.mem_map.mp hmem with ⟨z, hz, hkey⟩
      rw [zipSyncGo_eq] at hz
      rcases List.mem_map.mp hz with ⟨j, hj, rfl⟩
      have hjlt := List.mem_range.mp hj
      by_cases hjh : j < headerColumns.length
      · left
        refine ⟨headerColumns[j], List.getElem_mem hjh, ?_⟩
        rw [← hkey]
        simp only [Function.comp_apply]
        rw [List.getElem?_eq_getElem hjh]
      · right
        refine ⟨j, by omega, by omega, ?_⟩
        rw [← hkey]
        simp only [Function.comp_apply]
        rw [List.getElem?_eq_none (by omega)]
        simp
  · intro hnodup hlen idx hcidx hidx
    have hmaxeq : max headerColumns.length columns.length = headerColumns.length := by omega
    have hAkeys :
        (((zipSyncGo headerColumns columns 0).map fun z =>
            ((match z.1 with | some e => e.1 | none => "column_" ++ toString z.2.2),
              (match z.1 with | some e => e.2 | none => fun value => value)
                (z.2.1.getD ""))).map Prod.fst) =
          headerColumns.map Prod.fst := by
      rw [List.map_map, zipSyncGo_eq, List.map_map, hmaxeq]
      have := range_map_header_names headerColumns (fun j => "column_" ++ toString (0 + j))
      rw [← this]
      apply List.map_congr_left
      intro j _
      rfl
    rw [emitObject_eq_foldl_assign,
      foldl_objSet_of_nodup _ [] (by rw [hAkeys]; exact hnodup) (by simp)]
    rw [List.nil_append, List.getElem?_map, zipSyncGo_eq, List.getElem?_map,
      List.getElem?_range (by omega)]
    simp only [Option.map_some']
    rw [List.getElem?_eq_getElem hidx, List.getElem?_eq_none (by omega)]
    rfl

/-- Witness for `emitObject_keys_and_missing_columns` at a concrete
record: header `h` with an extra column yields the key `column_1`, and a
missing trailing column under headers `h`, `i` binds `i` to the empty
string. -/
theorem emitObject_keys_and_missing_columns_witness :
    (("column_1" = "h" ∨ "column_1" = "column_" ++ toString 1) ∧
        (emitObject ["x"] [("h", fun v => v), ("i", fun v => v)])[1]? = some ("i", "")) := by
  constructor
  · right
    rfl
  · have h2 := (emitObject_keys_and_missing_columns ["x"]
      [("h", fun v => v), ("i", fun v => v)]).2 (by simp) (by simp) 1 (by simp) (by simp)
    simpa using h2

/-! ## Claim theorems -/

/-- C1: the reconstruction invariant fails on the code.  On the source
`"ab"` (no delimiter anywhere) with `skipEmpty = false` the synchronous
spliterator crashes on its first `next()` — the queue stays empty after
`#fill`, `dequeue()` returns `undefined`, and the destructuring throws —
emitting nothing; on `"ab\ncd"` it emits only `"ab"` and then crashes,
so no concatenation of the emissions with the delimiter reconstructs the
source. -/
theorem syncSpliterator_crashes_on_unterminated_source :
    syncCollect 32 (mkSyncState (strBytes "ab") { skipEmpty := some false }) = ([], .crashed) ∧
    syncCollect 32 (mkSyncState (strBytes "ab\ncd") { skipEmpty := some false }) =
      ([strBytes "ab"], .crashed) := by decide

/-- C2: the synchronous and asynchronous spliterators do not emit
identical sequences for the same source and init.  On `"ab\ncd"` with
default init the synchronous spliterator emits `"ab"` and then throws,
while the asynchronous spliterator over the same bytes as one chunk
emits `"ab"` then `"cd"` and finishes. -/
theorem sync_async_emissions_differ :
    syncCollect 32 (mkSyncState (strBytes "ab\ncd") {}) = ([strBytes "ab"], .crashed) ∧
    asyncCollect 32 (mkAsyncState [strBytes "ab\ncd"] smallInit) =
      ([strBytes "ab", strBytes "cd"], .finished) := by decide

/-- C4: on the 1000-byte source with line feeds at 100, 250, 500, and
750 and a target of 3 chunks, the planner returns
`[(0, 249), (251, 499), (501, 1000)]` — each interior end is one byte
short of the claimed `[(0, 250), (251, 500), (501, 1000)]`, because the
fix-up subtracts the delimiter length from the delimiter's start, so the
half-open ranges drop the data bytes at 249 and 499. -/
theorem planner_example_boundaries_off_by_delimiter :
    delimitedChunkRanges plannerExampleSource [10] 3 = [(0, 249), (251, 499), (501, 1000)] := by
  decide

/-- C5: `take` is not enforced by the synchronous CSV generator.  For a
header row followed by three data rows and `take = 1`,
`CSVSpliterator.from` emits all three rows (its loop never advances the
yield count after a yield), while `CSVSpliterator.fromAsync` on the same
bytes emits exactly one. -/
theorem csvFrom_take_not_enforced :
    csvFrom (strBytes "h,\na,\nb,\nc,\n") { take := some 1 } =
      .ok [.arr ["a"], .arr ["b"], .arr ["c"]] ∧
    csvFromAsync [strBytes "h,\na,\nb,\nc,\n"] { take := some 1, highWaterMark := some 1 } =
      .ok [.arr ["a"]] := by decide

/-- C6 (counterexample): with `mode = object` and `normalizeKeys`
unspecified, `CSVSpliterator.from` does *not* canonicalize the header:
the emitted record keeps the raw key `"A B"` even though canonicalization
would produce `"A_B"`. -/
theorem csvFrom_normalizeKeys_default_counterexample :
    csvFrom (strBytes "A B,\nx,\n") { mode := some CSVMode.object } =
      .ok [.obj [("A B", "x")]] ∧
    normalizeColumnNames ["A B"] = ["A_B"] ∧ ("A B" : String) ≠ "A_B" := by decide

/-- C6 (amended): when `normalizeKeys` is unspecified,
`CSVSpliterator.fromAsync` canonicalizes header names exactly when the
mode is not `array`, while `CSVSpliterator.from` never canonicalizes
(its destructuring has no mode-dependent default and `undefined` is
falsy). -/
theorem normalizeKeys_default_resolution :
    (∀ columns : List String, csvFromHeaders none columns = columns) ∧
    (∀ (mode : CSVMode) (columns : List String),
        csvFromAsyncHeaders none mode columns =
          if mode = CSVMode.array then columns else normalizeColumnNames columns) := by
  constructor
  · intro columns
    rfl
  · intro mode columns
    cases mode <;> simp [csvFromAsyncHeaders]

/-- C7 (counterexample): with `header = true` and `mode = object`, a
data row with more columns than headers produces the key `"column_1"`,
which is outside the header set `{"h"}`; and a row with fewer columns
than the headers `h`, `i` binds the trailing key `"i"` to the empty
string rather than leaving it absent or `undefined`. -/
theorem csvFrom_object_key_counterexample :
    csvFrom (strBytes "h,\nx,y,\n") { mode := some CSVMode.object } =
      .ok [.obj [("h", "x"), ("column_1", "y")]] ∧
    ("column_1" : String) ≠ "h" ∧
    csvFrom (strBytes "h,i,\nx,\n") { mode := some CSVMode.object } =
      .ok [.obj [("h", "x"), ("i", "")]] := by decide

/-- C8: `return()` does not terminate the iterator.  After one `next()`
(emitting `"a"`) and a `return()`, the `done` flag is still unset, the
index queue still holds the pending range, the buffer is not cleared,
and the following `next()` emits `"b"` instead of the terminal
result. -/
theorem asyncReturn_resumes_emission :
    (asyncNext 16 (mkAsyncState [strBytes "a\nb\n"] smallInit)).1 = .yields (strBytes "a") ∧
    (asyncReturn (asyncNext 16 (mkAsyncState [strBytes "a\nb\n"] smallInit)).2).done = false ∧
    (asyncReturn (asyncNext 16 (mkAsyncState [strBytes "a\nb\n"] smallInit)).2).indices =
      [(2, 3)] ∧
    (asyncReturn (asyncNext 16 (mkAsyncState [strBytes "a\nb\n"] smallInit)).2).bytesWritten = 4 ∧
    (asyncNext 16 (asyncReturn
        (asyncNext 16 (mkAsyncState [strBytes "a\nb\n"] smallInit)).2)).1 =
      .yields (strBytes "b") := by decide

/-- C9: a `position` equal to the source size does not make the
spliterator emit nothing: `#fill` runs its end-of-source block with no
ranges ever seen and a zero yield count, enqueues the whole source, and
`next()` emits all of `"abc"`. -/
theorem position_at_size_emits_whole_source :
    syncCollect 32 (mkSyncState (strBytes "abc") { position := some 3 }) =
      ([strBytes "abc"], .finished) := by decide

/-- C10: when `skipEmpty` is unspecified both constructors default it to
`true`, and under that default no emitted slice is ever empty — adjacent
delimiters and delimiters at the source edges produce no empty
records. -/
theorem skipEmpty_default_and_no_empty_slices (source : List Nat) (chunks : List (List Nat))
    (init : SInit) (ainit : AInit) (fuel : Nat)
    (hs : init.skipEmpty = none) (ha : ainit.skipEmpty = none) :
    (mkSyncState source init).skipEmpty = true ∧
    (mkAsyncState chunks ainit).skipEmpty = true ∧
    (∀ slice ∈ (syncCollect fuel (mkSyncState source init)).1, slice ≠ []) ∧
    (∀ slice ∈ (asyncCollect fuel (mkAsyncState chunks ainit)).1, slice ≠ []) := by
  have h1 : (mkSyncState source init).skipEmpty = true := by
    simp [mkSyncState, hs]
  have h2 : (mkAsyncState chunks ainit).skipEmpty = true := by
    simp [mkAsyncState, ha]
  exact ⟨h1, h2, syncCollect_nonempty fuel _ h1, asyncCollect_nonempty fuel _ h2⟩

/-- Witness for `skipEmpty_default_and_no_empty_slices`: the default
init leaves `skipEmpty` unspecified, and on `"a\n\nb\n"` (adjacent
delimiters and a trailing delimiter) every emitted slice is nonempty. -/
theorem skipEmpty_default_and_no_empty_slices_witness :
    ({} : SInit).skipEmpty = none ∧ ({} : AInit).skipEmpty = none ∧
      ((mkSyncState (strBytes "a\n\nb\n") {}).skipEmpty = true ∧
        (mkAsyncState [strBytes "a\n\nb\n"] {}).skipEmpty = true ∧
        (∀ slice ∈ (syncCollect 32 (mkSyncState (strBytes "a\n\nb\n") {})).1, slice ≠ []) ∧
        (∀ slice ∈ (asyncCollect 32 (mkAsyncState [strBytes "a\n\nb\n"] {})).1, slice ≠ [])) :=
  ⟨rfl, rfl,
    skipEmpty_default_and_no_empty_slices (strBytes "a\n\nb\n") [strBytes "a\n\nb\n"] {} {} 32
      rfl rfl⟩

end Spliterator
